import Mathlib

deriving instance DecidableEq for Except

/-!
# Verification of `ghcd` (GitHub Clone Directory)

Shallow embedding of the core logic of the `ghcd` CLI:
* `parseGitHubUrl` (src/utils/parse.ts): URL/shorthand → structured location;
* the tree walk, file flattening and size accounting of `downloadDirectory`
  (src/utils/download.ts);
* the progress aggregation of `handleDownloadProgress`;
* the `Promise.all` semantics of `queue.addAll` used by the download phase;
* the collision-resolving rename loop and `package.json` rewriting of
  `renameDirectory` / `getBestName` (src/index.ts);
* the once-only authentication log of `get`.

External effects (HTTP, filesystem, the `gh` binary) are modelled as explicit
oracles passed in as functions or lists; JavaScript truthiness of strings is
modelled as `≠ ""`, and absent (`undefined`) values as `Option`.  JavaScript
string primitives (`split`, `join`, `startsWith`, slicing, `replace`) are
modelled charwise with structurally recursive functions so that every
definition evaluates inside the kernel.
-/

set_option autoImplicit false

namespace Ghcd

/-! ## JavaScript string primitives -/

/-- JS `str.split(sep)` for a one-character separator: split at every
occurrence, keeping empty pieces (`"a/".split("/") = ["a", ""]`,
`"".split("/") = [""]`). -/
def splitChars (sep : Char) : List Char → List (List Char)
  | [] => [[]]
  | c :: cs =>
    match splitChars sep cs with
    | [] => [[]]
    | h :: t => if c = sep then [] :: h :: t else (c :: h) :: t

/-- JS `str.split(sep)` on `String`. -/
def jsSplit (sep : Char) (s : String) : List String :=
  (splitChars sep s.data).map String.mk

/-- JS `array.join(sep)`. -/
def jsJoin (sep : String) : List String → String
  | [] => ""
  | [s] => s
  | s :: rest => s ++ sep ++ jsJoin sep rest

/-- JS `str.startsWith(p)`. -/
def jsStartsWith (s p : String) : Bool :=
  p.data.isPrefixOf s.data

/-- Drop the first `n` characters of a string (character-level slicing). -/
def strDrop (s : String) (n : Nat) : String :=
  ⟨s.data.drop n⟩

/-- Character count of a string. -/
def strLen (s : String) : Nat :=
  s.data.length

/-- JS `str.replace(/c/g, d)` for one-character pattern and replacement. -/
def replaceChar (c d : Char) (s : String) : String :=
  ⟨s.data.map (fun x => if x = c then d else x)⟩

/-! ## Data model -/

/-- Structure `GitHubLocation` (src/utils/parse.ts): the parsed location
`{user, repository, branch, dir}`. -/
structure GitHubLocation where
  user : String
  repository : String
  branch : String
  dir : String
deriving Repr, DecidableEq

/-- Kind of a git tree entry as reported by the GitHub trees API:
`"tree"` (directory) or `"blob"` (file). -/
inductive EntryType where
  | tree
  | blob
deriving Repr, DecidableEq

/-- Structure `TreeEntry` (src/utils/download.ts): one item of a trees-API
response.
`size` is optional (absent for some objects); `transferredSize` is the mutable
per-file progress counter, initially absent. -/
structure TreeEntry where
  path : String
  mode : String
  type : EntryType
  sha : String
  size : Option Nat := none
  url : String
  transferredSize : Option Nat := none
deriving Repr, DecidableEq

/-! ## Location resolver (`parseGitHubUrl`, src/utils/parse.ts) -/

/-- The fixed host base the parser normalizes against. -/
def githubBase : String := "https://github.com/"

/-- The normalization step: `if (!url.startsWith("https://github.com/"))
url = "https://github.com/" + url`. -/
def normalizeUrl (url : String) : String :=
  if jsStartsWith url githubBase then url else githubBase ++ url

/-- Model of `new URL(url).pathname` for a URL that starts with the fixed
`https://github.com/` base: the path is everything after the host, cut at the
first query (`?`) or fragment (`#`) delimiter, with the leading slash
restored.  (Userinfo and ports do not occur after normalization against
this fixed host; percent-encoding, backslash conversion and dot-segment
resolution of the WHATWG parser are out of scope of the embedding.) -/
def urlPathname (url : String) : String :=
  "/" ++ String.mk ((strDrop url (strLen githubBase)).data.takeWhile
    (fun c => c ≠ '?' && c ≠ '#'))

/-- The field extraction of `parseGitHubUrl`: from the slash-split pathname,
`user = pathname[1]`, `repository = pathname[2]`, `branch = pathname[4]`
(`pathname[3]`, the `tree` marker, is never read), and
`dir = pathname.slice(5).join("/")`.  A JavaScript out-of-range index gives
`undefined`, which the later truthiness check treats like the empty string;
`List.getD _ ""` models both at once. -/
def locationOfParts (parts : List String) : GitHubLocation where
  user := parts.getD 1 ""
  repository := parts.getD 2 ""
  branch := parts.getD 4 ""
  dir := jsJoin "/" (parts.drop 5)

/-- Error taxonomy of the parser: `throw new Error("Invalid GitHub URL")`. -/
inductive ParseError where
  | invalidLocation
deriving Repr, DecidableEq

/-- The slash-split pathname segments of the normalized URL. -/
def urlParts (url : String) : List String :=
  jsSplit '/' (urlPathname (normalizeUrl url))

/-- Function `parseGitHubUrl` (src/utils/parse.ts): normalize, split the
pathname on
`/`, extract the four fields, and reject if any is empty
(`!parsed.user || !parsed.repository || !parsed.branch || !parsed.dir`). -/
def parseGitHubUrl (url : String) : Except ParseError GitHubLocation :=
  let parsed := locationOfParts (urlParts url)
  if parsed.user = "" ∨ parsed.repository = "" ∨ parsed.branch = "" ∨
      parsed.dir = "" then
    .error .invalidLocation
  else
    .ok parsed

/-! ## Tree walker (`downloadDirectory`, src/utils/download.ts) -/

/-- Error raised by the descent loop:
`throw new Error("Could not find directory in tree")`. -/
inductive WalkError where
  | pathNotFound
deriving Repr, DecidableEq

/-- The child lookup of one descent step:
`treeResponse.tree.find(entry => directoryToMatch === entry.path &&
entry.type === "tree")`. -/
def findDirectory (children : List TreeEntry) (name : String) : Option TreeEntry :=
  children.find? (fun e => name == e.path && e.type == EntryType.tree)

/-- The `while (directoryStack.length > 0)` descent loop of
`downloadDirectory`: fetch the children of the current tree, shift the next
segment, look it up with `findDirectory`, descend or fail.  Returns the
result together with the list of tree URLs fetched, one remote call per
element, in order (the fetch of a level happens before its lookup, so the
fetch of a failing level is part of the trace). -/
def descend (fetch : String → List TreeEntry) :
    TreeEntry → List String → Except WalkError TreeEntry × List String
  | current, [] => (.ok current, [])
  | current, seg :: rest =>
    match findDirectory (fetch current.url) seg with
    | some next =>
      let r := descend fetch next rest
      (r.1, current.url :: r.2)
    | none => (.error .pathNotFound, [current.url])

/-- The ref-lookup endpoint `/repos/{user}/{repository}/branches/{branch}`. -/
def branchEndpoint (loc : GitHubLocation) : String :=
  "https://api.github.com/repos/" ++ loc.user ++ "/" ++ loc.repository ++
    "/branches/" ++ loc.branch

/-- The trees endpoint `/repos/{user}/{repository}/git/trees/{sha}`. -/
def treesEndpoint (loc : GitHubLocation) (sha : String) : String :=
  "https://api.github.com/repos/" ++ loc.user ++ "/" ++ loc.repository ++
    "/git/trees/" ++ sha

/-- The synthetic root entry `currentDirectory` is initialized to, pointing at
the root tree of the commit. -/
def rootEntry (loc : GitHubLocation) (commitSha : String) : TreeEntry where
  path := ""
  mode := "040000"
  type := .tree
  sha := commitSha
  size := none
  url := treesEndpoint loc commitSha
  transferredSize := none

/-- The flat file list:
`filesToDownload = recursiveTreeResponse.tree.filter(entry =>
entry.type === "blob")`. -/
def filesToDownload (tree : List TreeEntry) : List TreeEntry :=
  tree.filter (fun e => e.type == EntryType.blob)

/-- Outcome of the remote phase of `downloadDirectory` up to the computation
of `filesToDownload`: the flat file list (or the error), how many remote
calls were issued before the recursive listing call, and whether the
recursive listing call itself was issued. -/
structure WalkRun where
  result : Except WalkError (List TreeEntry)
  callsBeforeRecursive : Nat
  recursiveIssued : Bool
deriving Repr, DecidableEq

/-- The remote phase of `downloadDirectory` (src/utils/download.ts):
one ref-to-commit lookup of the branches endpoint (`entry.commit.sha`,
modelled by `resolveRef`), the per-segment descent from `rootEntry`, then —
only on success — the recursive listing `currentDirectory.url + "?recursive=1"`
filtered to blobs.  `fetch` models a trees-API GET returning
`treeResponse.tree`. -/
def walkFiles (resolveRef : GitHubLocation → String)
    (fetch : String → List TreeEntry) (loc : GitHubLocation) : WalkRun :=
  match descend fetch (rootEntry loc (resolveRef loc)) (jsSplit '/' loc.dir) with
  | (.ok target, calls) =>
    { result := .ok (filesToDownload (fetch (target.url ++ "?recursive=1")))
      callsBeforeRecursive := 1 + calls.length
      recursiveIssued := true }
  | (.error e, calls) =>
    { result := .error e
      callsBeforeRecursive := 1 + calls.length
      recursiveIssued := false }

/-! ## Size accounting and progress aggregation -/

/-- The progress denominator:
`sizeAll = filesToDownload.reduce((sum, file) => sum + (file.size ?? 0), 0)`. -/
def sizeAll (files : List TreeEntry) : Nat :=
  files.foldl (fun sum f => sum + f.size.getD 0) 0

/-- The value `handleDownloadProgress` passes to `progressBar.update`:
`filesToDownload.reduce((sum, file) => sum + (file.transferredSize ?? 0), 0)`. -/
def progressTotal (files : List TreeEntry) : Nat :=
  files.foldl (fun sum f => sum + f.transferredSize.getD 0) 0

/-- One `downloadProgress` event of the task at `index`:
`filesToDownload[index].transferredSize = progress.transferred`. -/
def applyProgress (files : List TreeEntry) (index transferred : Nat) :
    List TreeEntry :=
  match files[index]? with
  | some f => files.set index { f with transferredSize := some transferred }
  | none => files

/-- A run of progress events, each a pair (task index, transferred bytes). -/
def runProgressEvents : List (Nat × Nat) → List TreeEntry → List TreeEntry
  | [], files => files
  | (i, v) :: es, files => runProgressEvents es (applyProgress files i v)

/-- Transport contract of the `downloadProgress` events of `got`:
`progress.transferred` is a cumulative byte count, so each event carries at
least the value of the counter it overwrites. -/
def validEvents : List (Nat × Nat) → List TreeEntry → Bool
  | [], _ => true
  | (i, v) :: es, files =>
    (match files[i]? with
     | some f => decide (f.transferredSize.getD 0 ≤ v)
     | none => true) &&
    validEvents es (applyProgress files i v)

/-! ## Download scheduler aggregate result (`queue.addAll`) -/

/-- Outcome of one download task: the relative path of the file and whether
its `pipeline(downloadStream, writeStream)` resolved or rejected (with a
cause). -/
structure DownloadOutcome where
  relativePath : String
  result : Except String Unit
deriving Repr, DecidableEq

/-- Model of `Promise.all` over the per-task promises, which is exactly what
the p-queue method `queue.addAll` awaits: the aggregate resolves with the
list of values iff every task resolves, and rejects with the error of the
first rejected task (tasks already in flight keep running, but their
outcomes are not part of the aggregate).  The embedding settles tasks in
submission order. -/
def promiseAll {ε α : Type} : List (Except ε α) → Except ε (List α)
  | [] => .ok []
  | .ok a :: rest => (promiseAll rest).map (a :: ·)
  | .error e :: _ => .error e

/-- The aggregate result of `await queue.addAll(...)` in `downloadDirectory`,
as a function of the individual task outcomes. -/
def downloadAllResult (jobs : List DownloadOutcome) : Except String Unit :=
  (promiseAll (jobs.map (·.result))).map (fun _ => ())

/-- The failed relative paths with their causes, in submission order — what a
`PartialDownloadFailure` would have to carry. -/
def failedJobs (jobs : List DownloadOutcome) : List (String × String) :=
  jobs.filterMap (fun j =>
    match j.result with
    | .error e => some (j.relativePath, e)
    | .ok _ => none)

/-- The cause of the first failed task, if any. -/
def firstFailure (jobs : List DownloadOutcome) : Option String :=
  jobs.findSome? (fun j =>
    match j.result with
    | .error e => some e
    | .ok _ => none)

/-! ## Rename with collision resolution (`renameDirectory`, src/index.ts) -/

/-- The candidate probed on the attempt with failure count `retries`:
`const currentName = bestName + (retries ? "-" + retries : "")` (`0` is falsy
in JS, so the first attempt probes the bare name). -/
def candidateName (bestName : String) (retries : Nat) : String :=
  bestName ++ (if retries ≠ 0 then "-" ++ toString retries else "")

/-- The `pRetry(renameDirectory, { forever: true, onFailedAttempt: () =>
retries++ })` loop: probe the candidate for the current failure count; if it
exists, fail the attempt (incrementing `retries`) and try again, else rename
and return the candidate.  The code retries forever; the embedding carries a
fuel argument and returns `none` only when the fuel runs out. -/
def renameLoop (pathExists : String → Bool) (bestName : String) :
    Nat → Nat → Option String
  | 0, _ => none
  | fuel + 1, retries =>
    if pathExists (candidateName bestName retries) then
      renameLoop pathExists bestName fuel (retries + 1)
    else
      some (candidateName bestName retries)

/-! ## Output naming and manifest rewriting (`getBestName` /
`renameDirectory`, src/index.ts) -/

/-- A `package.json` manifest, modelled as an association list of
string-valued fields (field order preserved, as JSON serialization does). -/
abbrev Manifest := List (String × String)

/-- JS property read `obj[k]`: the first binding of `k`, if any. -/
def lookupField (m : Manifest) (k : String) : Option String :=
  (m.find? (fun p => p.1 == k)).map (·.2)

/-- JS property assignment `obj[k] = v`: overwrite the binding of `k` when
the key is present (JSON objects bind each key once), else append a new
binding. -/
def setField : Manifest → String → String → Manifest
  | [], k, v => [(k, v)]
  | p :: ps, k, v =>
    if p.1 == k then (k, v) :: ps else p :: setField ps k v

/-- The fallback output name:
`location.repository + "-" + location.dir.replace(/\//g, "-")`. -/
def fallbackName (loc : GitHubLocation) : String :=
  loc.repository ++ "-" ++ replaceChar '/' '-' loc.dir

/-- Function `getBestName` (src/index.ts): the user-preferred name when
truthy, else the truthy `name` field of a readable `package.json`, else the
fallback.  `manifest = none` models the `fs.readJSON` call throwing. -/
def getBestName (loc : GitHubLocation) (manifest : Option Manifest)
    (userPref : Option String) : String :=
  if userPref.getD "" ≠ "" then userPref.getD ""
  else
    match manifest with
    | some m =>
      match lookupField m "name" with
      | some n => if n ≠ "" then n else fallbackName loc
      | none => fallbackName loc
    | none => fallbackName loc

/-- A `fs.writeJSON(path, content, { spaces })` effect. -/
structure ManifestWrite where
  content : Manifest
  spaces : Nat
deriving Repr, DecidableEq

/-- The `package.json` rewrite step of `renameDirectory` (src/index.ts):
only `if (bestName === userPreferredDirectoryName)` is the manifest read,
its `name` field assigned `bestName`, and the file rewritten with
`{ spaces: 2 }`; a failing read (`none`) is swallowed and nothing is
written.  Returns the write performed, if any. -/
def manifestRewrite (manifest : Option Manifest) (bestName : String)
    (userPref : Option String) : Option ManifestWrite :=
  if userPref == some bestName then
    match manifest with
    | some m => some ⟨setField m "name" bestName, 2⟩
    | none => none
  else
    none

/-! ## Authentication log (`get` / `getAuthToken`, src/utils/download.ts) -/

/-- The one-line informational log of `get`: token mode or anonymous mode. -/
inductive AuthLog where
  | withToken
  | anonymously
deriving Repr, DecidableEq

/-- Module state of src/utils/download.ts: the memoized `GITHUB_TOKEN`
(initially `process.env.GITHUB_TOKEN`) and the `didLogAuth` flag
(initially `false`). -/
structure AuthState where
  token : Option String
  didLogAuth : Bool
deriving Repr, DecidableEq

/-- JS truthiness of a possibly-undefined string. -/
def truthyOpt (s : Option String) : Bool :=
  s.getD "" ≠ ""

/-- One call of `get` (src/utils/download.ts), restricted to its auth/log
behavior: if `GITHUB_TOKEN` is falsy, run `getAuthToken` (`ghResult` models
`execa("gh", ["auth", "token"])`: `none` = it threw, `some out` = stdout
`out`, assigned only when truthy); then, unless `didLogAuth` is already set,
emit the one-line auth log and set the flag.  Returns the new module state
and the logs emitted by this call. -/
def getCall (ghResult : Option String) (s : AuthState) : AuthState × List AuthLog :=
  let token := if truthyOpt s.token then s.token
               else if truthyOpt ghResult then ghResult
               else s.token
  let logs := if s.didLogAuth then []
              else [if truthyOpt token then AuthLog.withToken
                    else AuthLog.anonymously]
  ({ token := token, didLogAuth := true }, logs)

/-- A run of remote requests through `get`, one `gh` oracle answer per
request, collecting all emitted auth logs. -/
def runGets : List (Option String) → AuthState → AuthState × List AuthLog
  | [], s => (s, [])
  | g :: gs, s =>
    let r := getCall g s
    let rest := runGets gs r.1
    (rest.1, r.2 ++ rest.2)

/-! ## Concrete fixtures used by the witnesses -/

/-- A concrete location with a two-segment path. -/
def loc0 : GitHubLocation := ⟨"o", "r", "main", "a/b"⟩

/-- A ref oracle resolving every branch to the commit `sha0`. -/
def resolveRef0 : GitHubLocation → String := fun _ => "sha0"

/-- A concrete remote tree: the root contains directory `a`, directory `a`
contains directory `b`, and the recursive listing of `b` holds one file. -/
def fetch0 : String → List TreeEntry := fun url =>
  if url = treesEndpoint loc0 "sha0" then
    [{ path := "a", mode := "040000", type := .tree, sha := "s1", url := "u1" }]
  else if url = "u1" then
    [{ path := "b", mode := "040000", type := .tree, sha := "s2", url := "u2" }]
  else if url = "u2?recursive=1" then
    [{ path := "f.txt", mode := "100644", type := .blob, sha := "s3",
       size := some 10, url := "u3" }]
  else []

/-- The local entries existing in the collision scenario of the spec:
`X`, `X-1` and `X-2`. -/
def existsXYZ : String → Bool := fun s => s == "X" || s == "X-1" || s == "X-2"

/-- Progress fixture: two files of declared sizes 5 and 3, not yet started. -/
def files8 : List TreeEntry :=
  [{ path := "f", mode := "100644", type := .blob, sha := "s",
     size := some 5, url := "u" },
   { path := "g", mode := "100644", type := .blob, sha := "t",
     size := some 3, url := "v" }]

/-- Progress fixture: a run of cumulative transport events on `files8`. -/
def events8 : List (Nat × Nat) := [(0, 2), (0, 5), (1, 3)]

/-- Progress fixture: the fully transferred end state of `files8`. -/
def final8 : List TreeEntry :=
  [{ path := "f", mode := "100644", type := .blob, sha := "s",
     size := some 5, url := "u", transferredSize := some 5 },
   { path := "g", mode := "100644", type := .blob, sha := "t",
     size := some 3, url := "v", transferredSize := some 3 }]

/-! ## Theorems -/

section Theorems

/-- Dropping more elements than the index that was overwritten erases the
overwrite. -/
theorem drop_set_of_index_lt {α : Type} (l : List α) (i : Nat) (a : α)
    (j : Nat) (h : i < j) : (l.set i a).drop j = l.drop j := by
  ext k x
  simp only [List.getElem?_drop]
  rw [List.getElem?_set_ne (by omega)]

/-- C6: after normalizing a shorthand by prefixing the host, a successfully
parsed location takes its user from pathname segment 1, its repository from
segment 2, its branch from segment 4, and its directory from segments 5
onward joined by `/`; segment 3 (the literal `tree` marker) is discarded
without being inspected, so overwriting it never changes the extracted
location. -/
theorem parseGitHubUrl_segments (url : String) (loc : GitHubLocation)
    (parts : List String) (marker : String)
    (h : parseGitHubUrl url = .ok loc) :
    (loc.user = (urlParts url).getD 1 "" ∧
     loc.repository = (urlParts url).getD 2 "" ∧
     loc.branch = (urlParts url).getD 4 "" ∧
     loc.dir = jsJoin "/" ((urlParts url).drop 5)) ∧
    locationOfParts (parts.set 3 marker) = locationOfParts parts := by
  constructor
  · dsimp only [parseGitHubUrl] at h
    split at h
    · exact absurd h (by simp)
    · cases h
      exact ⟨rfl, rfl, rfl, rfl⟩
  · unfold locationOfParts
    simp only [GitHubLocation.mk.injEq]
    refine ⟨?_, ?_, ?_, ?_⟩
    · rw [List.getD_eq_getElem?_getD, List.getD_eq_getElem?_getD,
        List.getElem?_set_ne (by omega)]
    · rw [List.getD_eq_getElem?_getD, List.getD_eq_getElem?_getD,
        List.getElem?_set_ne (by omega)]
    · rw [List.getD_eq_getElem?_getD, List.getD_eq_getElem?_getD,
        List.getElem?_set_ne (by omega)]
    · rw [drop_set_of_index_lt _ _ _ _ (by omega)]

/-- Witness for C6 at the concrete shorthand `a/b/tree/main/x/y`. -/
theorem parseGitHubUrl_segments_witness :
    (("a" : String) = (urlParts "a/b/tree/main/x/y").getD 1 "" ∧
     ("b" : String) = (urlParts "a/b/tree/main/x/y").getD 2 "" ∧
     ("main" : String) = (urlParts "a/b/tree/main/x/y").getD 4 "" ∧
     ("x/y" : String) = jsJoin "/" ((urlParts "a/b/tree/main/x/y").drop 5)) ∧
    locationOfParts (["", "a", "b", "blob", "main", "x"].set 3 "tree") =
      locationOfParts ["", "a", "b", "blob", "main", "x"] :=
  parseGitHubUrl_segments "a/b/tree/main/x/y" ⟨"a", "b", "main", "x/y"⟩
    ["", "a", "b", "blob", "main", "x"] "tree" (by decide)

/-- C7: the parser never returns a location with an empty field — every
returned location has non-empty user, repository, branch and directory — and
whenever any of the four extracted components comes out empty (for example
from too few path segments) it fails with the invalid-location error. -/
theorem parseGitHubUrl_invalidLocation (url₁ url₂ : String)
    (loc : GitHubLocation)
    (h₁ : parseGitHubUrl url₁ = .ok loc)
    (h₂ : (locationOfParts (urlParts url₂)).user = "" ∨
      (locationOfParts (urlParts url₂)).repository = "" ∨
      (locationOfParts (urlParts url₂)).branch = "" ∨
      (locationOfParts (urlParts url₂)).dir = "") :
    (loc.user ≠ "" ∧ loc.repository ≠ "" ∧ loc.branch ≠ "" ∧ loc.dir ≠ "") ∧
    parseGitHubUrl url₂ = .error .invalidLocation := by
  constructor
  · dsimp only [parseGitHubUrl] at h₁
    split at h₁
    · exact absurd h₁ (by simp)
    · cases h₁
      rename_i hcond
      push_neg at hcond
      exact hcond
  · dsimp only [parseGitHubUrl]
    split
    · rfl
    · rename_i hcond
      exact absurd h₂ hcond

/-- Witness for C7: `a/b/tree/main/x` parses with all fields non-empty, and
the two-segment shorthand `a/b` is rejected. -/
theorem parseGitHubUrl_invalidLocation_witness :
    (("a" : String) ≠ "" ∧ ("b" : String) ≠ "" ∧ ("main" : String) ≠ "" ∧
      ("x" : String) ≠ "") ∧
    parseGitHubUrl "a/b" = .error .invalidLocation :=
  parseGitHubUrl_invalidLocation "a/b/tree/main/x" "a/b" ⟨"a", "b", "main", "x"⟩
    (by decide) (by decide)

/-- A successful descent issues exactly one tree fetch per path segment. -/
theorem descend_ok_calls (fetch : String → List TreeEntry)
    (segs : List String) :
    ∀ (current target : TreeEntry),
      (descend fetch current segs).1 = .ok target →
      (descend fetch current segs).2.length = segs.length := by
  induction segs with
  | nil =>
    intro current target _
    rfl
  | cons seg rest ih =>
    intro current target h
    simp only [descend] at h ⊢
    cases hf : findDirectory (fetch current.url) seg with
    | none => simp [hf] at h
    | some next =>
      simp only [hf, List.length_cons] at h ⊢
      rw [ih next target h]

/-- C2: for a location whose path has `D` slash-separated segments, a walk in
which every segment is found issues exactly `D + 1` remote calls before the
final recursive listing call — one ref-to-commit lookup plus one
immediate-children tree lookup per segment, consumed left to right. -/
theorem walkFiles_call_count (resolveRef : GitHubLocation → String)
    (fetch : String → List TreeEntry) (loc : GitHubLocation)
    (files : List TreeEntry)
    (h : (walkFiles resolveRef fetch loc).result = .ok files) :
    (walkFiles resolveRef fetch loc).callsBeforeRecursive =
      (jsSplit '/' loc.dir).length + 1 := by
  unfold walkFiles at h ⊢
  generalize hg : descend fetch (rootEntry loc (resolveRef loc))
    (jsSplit '/' loc.dir) = d at h ⊢
  obtain ⟨res, calls⟩ := d
  cases res with
  | ok target =>
    have hlen : calls.length = (jsSplit '/' loc.dir).length := by
      have hc := descend_ok_calls fetch (jsSplit '/' loc.dir)
        (rootEntry loc (resolveRef loc)) target (by rw [hg])
      rw [hg] at hc
      exact hc
    show 1 + calls.length = (jsSplit '/' loc.dir).length + 1
    omega
  | error e =>
    have h' : (Except.error e : Except WalkError (List TreeEntry)) =
      .ok files := h
    exact absurd h' (by simp)

/-- Witness for C2: the concrete two-segment walk issues three calls before
the recursive listing. -/
theorem walkFiles_call_count_witness :
    (walkFiles resolveRef0 fetch0 loc0).callsBeforeRecursive =
      (jsSplit '/' loc0.dir).length + 1 :=
  walkFiles_call_count resolveRef0 fetch0 loc0
    [{ path := "f.txt", mode := "100644", type := .blob, sha := "s3",
       size := some 10, url := "u3" }] (by decide)

/-- C4: when the fetched children of the current level contain no
directory-kind entry named like the current segment, the descent stops with
`pathNotFound` after the fetch of that level only — the trace holds exactly
the one URL, so no deeper child lookup happens — and a failed walk never
issues the recursive listing call. -/
theorem descend_pathNotFound (fetch : String → List TreeEntry)
    (current : TreeEntry) (seg : String) (rest : List String)
    (resolveRef : GitHubLocation → String) (loc : GitHubLocation)
    (e : WalkError)
    (h₁ : findDirectory (fetch current.url) seg = none)
    (h₂ : (walkFiles resolveRef fetch loc).result = .error e) :
    descend fetch current (seg :: rest) =
      (.error .pathNotFound, [current.url]) ∧
    (walkFiles resolveRef fetch loc).recursiveIssued = false := by
  constructor
  · simp [descend, h₁]
  · unfold walkFiles at h₂ ⊢
    generalize hg : descend fetch (rootEntry loc (resolveRef loc))
      (jsSplit '/' loc.dir) = d at h₂ ⊢
    obtain ⟨res, calls⟩ := d
    cases res with
    | ok target =>
      have h' : (Except.ok (filesToDownload (fetch (target.url ++
        "?recursive=1"))) : Except WalkError (List TreeEntry)) =
        .error e := h₂
      exact absurd h' (by simp)
    | error e' =>
      rfl

/-- Witness for C4: looking up the absent segment `zz` fails immediately and
the failed walk issues no recursive listing. -/
theorem descend_pathNotFound_witness :
    descend fetch0 (rootEntry ⟨"o", "r", "main", "zz"⟩ "sha0") ["zz"] =
      (.error .pathNotFound,
        [(rootEntry ⟨"o", "r", "main", "zz"⟩ "sha0").url]) ∧
    (walkFiles resolveRef0 fetch0 ⟨"o", "r", "main", "zz"⟩).recursiveIssued =
      false :=
  descend_pathNotFound fetch0 (rootEntry ⟨"o", "r", "main", "zz"⟩ "sha0")
    "zz" [] resolveRef0 ⟨"o", "r", "main", "zz"⟩ .pathNotFound
    (by decide) (by decide)

/-- Folding addition of a projection over a list from any accumulator is the
accumulator plus the sum of the projections. -/
theorem foldl_add_map {α : Type} (f : α → Nat) (l : List α) (a : Nat) :
    l.foldl (fun s x => s + f x) a = a + (l.map f).sum := by
  induction l generalizing a with
  | nil => simp
  | cons x xs ih => simp [ih, Nat.add_assoc]

/-- C5: the progress denominator is the sum of the `size` fields over the
blob-kind entries of the flat list, an absent size contributing `0`, and a
blob entry without a size is still part of the files to download. -/
theorem sizeAll_spec (tree : List TreeEntry) (e : TreeEntry)
    (he : e ∈ tree) (hb : e.type = EntryType.blob) :
    sizeAll (filesToDownload tree) =
      ((filesToDownload tree).map (fun f => f.size.getD 0)).sum ∧
    e ∈ filesToDownload tree := by
  constructor
  · simpa [sizeAll] using
      foldl_add_map (fun f => f.size.getD 0) (filesToDownload tree) 0
  · exact List.mem_filter.mpr ⟨he, by simp [hb]⟩

/-- Witness for C5 on a two-entry tree whose second blob lacks a size. -/
theorem sizeAll_spec_witness :
    sizeAll (filesToDownload
      [{ path := "f", mode := "100644", type := .blob, sha := "s",
         size := some 7, url := "u" },
       { path := "g", mode := "100644", type := .blob, sha := "t",
         size := none, url := "v" }]) =
      ((filesToDownload
        [{ path := "f", mode := "100644", type := .blob, sha := "s",
           size := some 7, url := "u" },
         { path := "g", mode := "100644", type := .blob, sha := "t",
           size := none, url := "v" }]).map (fun f => f.size.getD 0)).sum ∧
    ({ path := "g", mode := "100644", type := .blob, sha := "t",
       size := none, url := "v" } : TreeEntry) ∈ filesToDownload
      [{ path := "f", mode := "100644", type := .blob, sha := "s",
         size := some 7, url := "u" },
       { path := "g", mode := "100644", type := .blob, sha := "t",
         size := none, url := "v" }] :=
  sizeAll_spec _ _ (by decide) (by decide)

/-- The sum of a list of naturals does not decrease when one position is
overwritten with a value at least as large as the value it replaces. -/
theorem sum_set_ge (l : List Nat) :
    ∀ (i b : Nat), (l[i]?).getD 0 ≤ b → l.sum ≤ (l.set i b).sum := by
  induction l with
  | nil =>
    intro i b _
    simp
  | cons x xs ih =>
    intro i b h
    cases i with
    | zero =>
      simp only [List.getElem?_cons_zero, Option.getD_some] at h
      simp only [List.set_cons_zero, List.sum_cons]
      omega
    | succ j =>
      simp only [List.getElem?_cons_succ] at h
      simp only [List.set_cons_succ, List.sum_cons]
      have := ih j b h
      omega

/-- One cumulative progress event never decreases the displayed total. -/
theorem progressTotal_applyProgress_le (files : List TreeEntry) (i v : Nat)
    (h : ∀ f, files[i]? = some f → f.transferredSize.getD 0 ≤ v) :
    progressTotal files ≤ progressTotal (applyProgress files i v) := by
  unfold applyProgress
  cases hf : files[i]? with
  | none => exact Nat.le_refl _
  | some f =>
    have e1 : progressTotal files =
        (files.map (fun f => f.transferredSize.getD 0)).sum := by
      simpa [progressTotal] using
        foldl_add_map (fun f => f.transferredSize.getD 0) files 0
    have e2 : progressTotal (files.set i { f with transferredSize := some v }) =
        ((files.set i { f with transferredSize := some v }).map
          (fun f => f.transferredSize.getD 0)).sum := by
      simpa [progressTotal] using
        foldl_add_map (fun f => f.transferredSize.getD 0)
          (files.set i { f with transferredSize := some v }) 0
    rw [e1, e2, List.map_set]
    apply sum_set_ge
    rw [List.getElem?_map, hf]
    simpa using h f hf

/-- The displayed total is monotone along any valid run of progress events. -/
theorem progressTotal_runEvents_le (events : List (Nat × Nat)) :
    ∀ (files : List TreeEntry), validEvents events files = true →
      progressTotal files ≤ progressTotal (runProgressEvents events files) := by
  induction events with
  | nil =>
    intro files _
    exact Nat.le_refl _
  | cons ev es ih =>
    obtain ⟨i, v⟩ := ev
    intro files h
    simp only [validEvents, Bool.and_eq_true] at h
    obtain ⟨h1, h2⟩ := h
    show progressTotal files ≤
      progressTotal (runProgressEvents es (applyProgress files i v))
    refine Nat.le_trans (progressTotal_applyProgress_le files i v ?_) (ih _ h2)
    intro f hf
    rw [hf] at h1
    exact of_decide_eq_true h1

/-- C8: the value handed to the progress bar always equals the sum of the
per-file transferred byte counters; along any run of cumulative transport
events this sum never decreases; and when every download has completed with
its counter at its declared size, the displayed sum equals the declared
total. -/
theorem progress_invariant (files final : List TreeEntry)
    (events : List (Nat × Nat))
    (hvalid : validEvents events files = true)
    (hfinal : ∀ f ∈ final, f.transferredSize.getD 0 = f.size.getD 0) :
    progressTotal files =
      (files.map (fun f => f.transferredSize.getD 0)).sum ∧
    progressTotal files ≤ progressTotal (runProgressEvents events files) ∧
    progressTotal final = sizeAll final := by
  refine ⟨?_, progressTotal_runEvents_le events files hvalid, ?_⟩
  · simpa [progressTotal] using
      foldl_add_map (fun f => f.transferredSize.getD 0) files 0
  · have e1 : progressTotal final =
        (final.map (fun f => f.transferredSize.getD 0)).sum := by
      simpa [progressTotal] using
        foldl_add_map (fun f => f.transferredSize.getD 0) final 0
    have e2 : sizeAll final = (final.map (fun f => f.size.getD 0)).sum := by
      simpa [sizeAll] using foldl_add_map (fun f => f.size.getD 0) final 0
    rw [e1, e2]
    exact congrArg List.sum (List.map_congr_left hfinal)

/-- Witness for C8 on the two-file fixture and its event run. -/
theorem progress_invariant_witness :
    progressTotal files8 =
      (files8.map (fun f => f.transferredSize.getD 0)).sum ∧
    progressTotal files8 ≤ progressTotal (runProgressEvents events8 files8) ∧
    progressTotal final8 = sizeAll final8 :=
  progress_invariant files8 final8 events8 (by decide) (by decide)

/-- Unfolding the aggregate download result over the first task. -/
theorem downloadAllResult_cons (j : DownloadOutcome)
    (rest : List DownloadOutcome) :
    downloadAllResult (j :: rest) =
      (match j.result with
       | .error e => .error e
       | .ok _ => downloadAllResult rest) := by
  cases hj : j.result with
  | error e => simp [downloadAllResult, promiseAll, hj, Except.map]
  | ok u =>
    cases u
    simp only [downloadAllResult, List.map_cons, hj, promiseAll]
    cases hp : promiseAll (rest.map (·.result)) <;> simp [Except.map, hp]

/-- Unfolding the first failure over the first task. -/
theorem firstFailure_cons (j : DownloadOutcome) (rest : List DownloadOutcome) :
    firstFailure (j :: rest) =
      (match j.result with
       | .error e => some e
       | .ok _ => firstFailure rest) := by
  cases hj : j.result with
  | error e => simp [firstFailure, hj]
  | ok u => simp [firstFailure, hj]

/-- Unfolding the failed-job list over the first task. -/
theorem failedJobs_cons (j : DownloadOutcome) (rest : List DownloadOutcome) :
    failedJobs (j :: rest) =
      (match j.result with
       | .error e => (j.relativePath, e) :: failedJobs rest
       | .ok _ => failedJobs rest) := by
  cases hj : j.result with
  | error e => simp [failedJobs, hj]
  | ok u => simp [failedJobs, hj]

/-- C1 counterexample: two runs whose failed-path lists differ (both holding
two failures) produce the same aggregate result, namely the bare error of
the first failed task — so the aggregate result of `queue.addAll` cannot
carry the list of failed relative paths and causes the claim requires. -/
theorem downloadAll_counterexample :
    downloadAllResult [⟨"a", .error "boom"⟩, ⟨"b", .error "crash"⟩] =
      .error "boom" ∧
    downloadAllResult [⟨"a", .error "boom"⟩, ⟨"c", .error "other"⟩] =
      .error "boom" ∧
    failedJobs [⟨"a", .error "boom"⟩, ⟨"b", .error "crash"⟩] =
      [("a", "boom"), ("b", "crash")] ∧
    failedJobs [⟨"a", .error "boom"⟩, ⟨"c", .error "other"⟩] =
      [("a", "boom"), ("c", "other")] :=
  ⟨rfl, rfl, rfl, rfl⟩

/-- C1 (amended): the aggregate of `queue.addAll` (`Promise.all` semantics)
rejects with the error of the first failed transfer alone — thereby
signalling failure whenever at least one transfer fails — and resolves only
when every transfer succeeds; no aggregate of all failed paths and causes is
produced (the carried error is just the head of the would-be failure
list). -/
theorem downloadAllResult_first_error (jobs : List DownloadOutcome) :
    downloadAllResult jobs =
      (match firstFailure jobs with
       | some e => .error e
       | none => .ok ()) ∧
    firstFailure jobs = ((failedJobs jobs).head?).map Prod.snd := by
  induction jobs with
  | nil => exact ⟨rfl, rfl⟩
  | cons j rest ih =>
    obtain ⟨ih1, ih2⟩ := ih
    constructor
    · rw [downloadAllResult_cons, firstFailure_cons]
      cases hj : j.result with
      | error e => rfl
      | ok u => exact ih1
    · rw [firstFailure_cons, failedJobs_cons]
      cases hj : j.result with
      | error e => simp
      | ok u => simpa using ih2

/-- The rename loop returns the candidate of the least non-colliding failure
count, provided enough fuel, starting from any attempt index below it. -/
theorem renameLoop_reaches (pathExists : String → Bool) (bestName : String) :
    ∀ (fuel j n : Nat), j ≤ n → n - j < fuel →
      pathExists (candidateName bestName n) = false →
      (∀ k, j ≤ k → k < n → pathExists (candidateName bestName k) = true) →
      renameLoop pathExists bestName fuel j =
        some (candidateName bestName n) := by
  intro fuel
  induction fuel with
  | zero =>
    intro j n _ h2 _ _
    omega
  | succ fuel ih =>
    intro j n hj hfuel hfree htaken
    by_cases hjn : j = n
    · subst hjn
      simp [renameLoop, hfree]
    · have hlt : j < n := by omega
      have hx : pathExists (candidateName bestName j) = true :=
        htaken j (Nat.le_refl j) hlt
      simp only [renameLoop, hx, if_true]
      exact ih (j + 1) n (by omega) (by omega) hfree
        (fun k hk1 hk2 => htaken k (by omega) hk2)

/-- C3: when the first `n` candidates (the bare base name, then the name
with suffixes `-1`, `-2`, …) all collide with existing local entries and the
candidate with suffix `-n` is free, the probe-and-rename loop — retried with
the failure count as suffix — returns that free candidate; in particular
with `X`, `X-1`, `X-2` existing, base name `X` yields `X-3`. -/
theorem renameDirectory_collision (pathExists : String → Bool)
    (bestName : String) (n fuel : Nat)
    (hfree : pathExists (candidateName bestName n) = false)
    (htaken : ∀ k, k < n → pathExists (candidateName bestName k) = true)
    (hfuel : n < fuel) :
    renameLoop pathExists bestName fuel 0 =
      some (candidateName bestName n) ∧
    renameLoop existsXYZ "X" 4 0 = some "X-3" := by
  constructor
  · exact renameLoop_reaches pathExists bestName fuel 0 n (Nat.zero_le n)
      (by omega) hfree (fun k _ hk => htaken k hk)
  · decide

/-- Witness for C3 on the concrete collision scenario. -/
theorem renameDirectory_collision_witness :
    renameLoop existsXYZ "X" 4 0 = some (candidateName "X" 3) ∧
    renameLoop existsXYZ "X" 4 0 = some "X-3" :=
  renameDirectory_collision existsXYZ "X" 3 4 (by decide) (by decide)
    (by decide)

/-- Unfolding a field lookup over the first binding. -/
theorem lookupField_cons (p : String × String) (l : Manifest) (k : String) :
    lookupField (p :: l) k =
      if p.1 == k then some p.2 else lookupField l k := by
  cases hb : p.1 == k <;> simp [lookupField, List.find?, hb]

/-- Reading back the field just assigned gives the assigned value. -/
theorem lookupField_setField_self (m : Manifest) (k v : String) :
    lookupField (setField m k v) k = some v := by
  induction m with
  | nil => simp [setField, lookupField_cons, lookupField]
  | cons p ps ih =>
    by_cases hp : p.1 = k
    · simp [setField, hp, lookupField_cons]
    · have hb : (p.1 == k) = false := by simpa using hp
      simp [setField, hb, lookupField_cons, ih]

/-- Assigning one field leaves every other field unchanged. -/
theorem lookupField_setField_ne (m : Manifest) (k v k' : String)
    (hne : k' ≠ k) :
    lookupField (setField m k v) k' = lookupField m k' := by
  have hkk : (k == k') = false := by
    simp only [beq_eq_false_iff_ne, ne_eq]
    exact fun h => hne h.symm
  induction m with
  | nil => simp [setField, lookupField_cons, lookupField, hkk]
  | cons p ps ih =>
    by_cases hp : p.1 = k
    · have hb : (p.1 == k) = true := by simpa using hp
      have hbk : (p.1 == k') = false := by
        simp only [beq_eq_false_iff_ne, ne_eq, hp]
        exact fun h => hne h.symm
      simp [setField, hb, hbk, lookupField_cons, hkk]
    · have hb : (p.1 == k) = false := by simpa using hp
      simp only [setField, hb, Bool.false_eq_true, if_false]
      rw [lookupField_cons, lookupField_cons]
      cases hbk : p.1 == k' with
      | true => simp
      | false => simpa using ih

/-- C9: when the user passed an explicit (truthy) output name and the
downloaded directory holds a readable `package.json`, the rename step
rewrites that manifest with its `name` field set to the user-supplied name,
using 2-space indentation, leaving every other field unchanged; when no
explicit name was given, no manifest write happens at all. -/
theorem manifestRewrite_spec (loc : GitHubLocation) (m : Manifest)
    (u k : String) (hu : u ≠ "") (hk : k ≠ "name") :
    manifestRewrite (some m) (getBestName loc (some m) (some u)) (some u) =
      some ⟨setField m "name" u, 2⟩ ∧
    lookupField (setField m "name" u) "name" = some u ∧
    lookupField (setField m "name" u) k = lookupField m k ∧
    manifestRewrite (some m) (getBestName loc (some m) none) none = none := by
  have hbest : getBestName loc (some m) (some u) = u := by
    simp [getBestName, hu]
  refine ⟨?_, lookupField_setField_self m "name" u,
    lookupField_setField_ne m "name" u k hk, ?_⟩
  · rw [hbest]
    simp [manifestRewrite]
  · simp [manifestRewrite]

/-- Witness for C9 on a concrete manifest with a `name` and a `version`
field and the explicit output name `mycopy`. -/
theorem manifestRewrite_spec_witness :
    manifestRewrite (some [("name", "old"), ("version", "1.0")])
      (getBestName ⟨"o", "r", "main", "x"⟩
        (some [("name", "old"), ("version", "1.0")]) (some "mycopy"))
      (some "mycopy") =
      some ⟨setField [("name", "old"), ("version", "1.0")] "name" "mycopy", 2⟩ ∧
    lookupField (setField [("name", "old"), ("version", "1.0")] "name"
      "mycopy") "name" = some "mycopy" ∧
    lookupField (setField [("name", "old"), ("version", "1.0")] "name"
      "mycopy") "version" =
      lookupField [("name", "old"), ("version", "1.0")] "version" ∧
    manifestRewrite (some [("name", "old"), ("version", "1.0")])
      (getBestName ⟨"o", "r", "main", "x"⟩
        (some [("name", "old"), ("version", "1.0")]) none) none = none :=
  manifestRewrite_spec ⟨"o", "r", "main", "x"⟩
    [("name", "old"), ("version", "1.0")] "mycopy" "version"
    (by decide) (by decide)

/-- Once the flag is set, later calls of `get` emit no auth log at all. -/
theorem runGets_flagged (gs : List (Option String)) :
    ∀ (s : AuthState), s.didLogAuth = true → (runGets gs s).2 = [] := by
  induction gs with
  | nil =>
    intro s _
    rfl
  | cons g gs ih =>
    intro s hs
    show (getCall g s).2 ++ (runGets gs (getCall g s).1).2 = []
    rw [ih (getCall g s).1 rfl]
    have h2 : (getCall g s).2 = [] := by
      simp [getCall, hs]
    rw [h2]
    rfl

/-- C10: starting from the initial module state (`didLogAuth = false`, any
environment token), a run of arbitrarily many remote requests through `get`
emits the informational auth-mode log at most once. -/
theorem authLog_once (gs : List (Option String)) (tok : Option String) :
    ((runGets gs { token := tok, didLogAuth := false }).2).length ≤ 1 := by
  cases gs with
  | nil => simp [runGets]
  | cons g rest =>
    show ((getCall g { token := tok, didLogAuth := false }).2 ++
      (runGets rest (getCall g { token := tok, didLogAuth := false }).1).2).length ≤ 1
    rw [runGets_flagged rest _ rfl]
    simp [getCall]

end Theorems

end Ghcd
